import Mathlib

/-!
Verification of the Curseforge-Pack-Downloader front end and of its
unpacking/acquisition core against the natural-language specification.

The TypeScript layer under `src/curseforge-pack-downloader-app` is embedded
directly (types, the Tauri invocation wrappers, the Home page handlers, the
version-select modal).  The Rust side of the Tauri application (the commands
`unpack`, `unpack_file`, `search_modpacks`, `get_pack_versions`) is not part
of the shipped sources; where a property is decided by that missing core, the
corresponding definition is modelled from the specification and is marked as
such in its doc comment.

Conventions: TypeScript `number` fields carrying ids, counts and sizes are
embedded as `Nat`; the progress fraction is embedded as `ℚ`; nullable fields
become `Option`; a JavaScript object whose fields may be absent after an
unchecked cast becomes a structure of `Option` fields.
-/

/-- `ProcessStage`, the enum of stages reported to the front end
(curseforge.ts, lines 11-17).  The four declared members, in declaration
order, are `ExtractingArchive`, `DownloadingArchive`, `DownloadingMods`,
`Finalizing`. -/
inductive ProcessStage
  | ExtractingArchive
  | DownloadingArchive
  | DownloadingMods
  | Finalizing
deriving DecidableEq

/-- The numeric value of each `ProcessStage` member (TypeScript enums number
their members from 0 in declaration order). -/
def ProcessStage.toNat : ProcessStage → Nat
  | .ExtractingArchive => 0
  | .DownloadingArchive => 1
  | .DownloadingMods => 2
  | .Finalizing => 3

/-- The identifier of each `ProcessStage` member, as written in the source. -/
def ProcessStage.name : ProcessStage → String
  | .ExtractingArchive => "ExtractingArchive"
  | .DownloadingArchive => "DownloadingArchive"
  | .DownloadingMods => "DownloadingMods"
  | .Finalizing => "Finalizing"

/-- The stage identifiers that actually occur in the source enum. -/
def codeStageNames : List String :=
  ["ExtractingArchive", "DownloadingArchive", "DownloadingMods", "Finalizing"]

/-- Refinement side only: the four stage identifiers named by the
specification sentence "`stage`: one of
`ResolvingManifest | ExtractingArchive | DownloadingMods | Finalizing`".
This definition follows the spec's words, to be compared with
`ProcessStage` from the source. -/
def specStageNames : List String :=
  ["ResolvingManifest", "ExtractingArchive", "DownloadingMods", "Finalizing"]

/-- `ProcessProgressResponse` (curseforge.ts, lines 4-9): one progress
snapshot delivered over the Tauri channel. -/
structure ProcessProgressResponse where
  stage : ProcessStage
  progress : ℚ
  message : String

/-- The data carried by the Tauri invocation performed by `unpack_modpack`
(curseforge.ts, lines 34-39): the command name together with the `id` and
`output` payload fields.  The `onEvent` channel carries no request data. -/
structure UnpackInvocation where
  cmd : String
  id : Nat
  output : String
deriving DecidableEq

/-- The keys of the payload object passed to `invoke` by `unpack_modpack`
(curseforge.ts, line 38): `id: id, output: path, onEvent: downloadEvent`. -/
def unpackArgKeys : List String :=
  ["id", "output", "onEvent"]

/-- `unpack_modpack(id, path, callback)` (curseforge.ts, lines 34-39):
invokes the backend command `"unpack"` with payload `id` and `output`.
The function has no file-id parameter. -/
def unpack_modpack (id : Nat) (path : String) : UnpackInvocation :=
  ⟨"unpack", id, path⟩

/-- Home's `onUnpack` handler (Home.tsx, lines 129-158): declared as
`async path => ...`, it binds only the first callback argument and calls
`unpack_modpack(item.id, path, setUnpackProgress)`.  The file id that
`PackItemComponent` supplies as second argument of `onUnpack` is therefore
ignored; we embed it as an explicit, unused parameter. -/
def homeOnUnpack (itemId : Nat) (path : String) (_fileId : Nat) : UnpackInvocation :=
  unpack_modpack itemId path

/-- The kind of an alert raised through `useAlertModal` in Home.tsx. -/
inductive AlertKind
  | error
  | info
deriving DecidableEq

/-- One alert presented by Home.tsx (title, kind, message). -/
structure AlertCall where
  title : String
  kind : AlertKind
  message : String
deriving DecidableEq

/-- The sequence of alerts presented by Home's unpack handlers, both the
archive-file handler (Home.tsx, lines 82-108) and the pack `onUnpack`
handler (Home.tsx, lines 131-157), as a function of the awaited unpack
outcome: the `catch` block presents the failure alert, and afterwards,
unconditionally (outside the try/catch), the handler presents the
"Unpack Finished" info alert. -/
def homeUnpackAlerts (outcome : Except String Unit) : List AlertCall :=
  (match outcome with
    | Except.error _ => [⟨"Failed to unpack", AlertKind.error, "Failed to unpack modpack"⟩]
    | Except.ok _ => [])
  ++ [⟨"Unpack Finished", AlertKind.info, "Modpack unpacked successfully."⟩]

/-- `Pagination` (ModSearchResult.ts, lines 1-6). -/
structure PaginationObj where
  index : Nat
  pageSize : Nat
  resultCount : Nat
  totalCount : Nat

/-- `Author` (ModSearchResult.ts, lines 106-111). -/
structure Author where
  id : Nat
  name : String
  url : String
  avatarUrl : String

/-- `Logo` (ModSearchResult.ts, lines 53-60). -/
structure Logo where
  id : Nat
  modId : Nat
  title : String
  description : String
  thumbnailUrl : String
  url : String

/-- `Screenshot` (ModSearchResult.ts, lines 98-105). -/
structure Screenshot where
  id : Nat
  modId : Nat
  title : String
  description : String
  thumbnailUrl : String
  url : String

/-- `LatestFileIndex` (ModSearchResult.ts, lines 114-121). -/
structure LatestFileIndex where
  gameVersion : String
  fileId : Nat
  filename : String
  releaseType : Nat
  gameVersionTypeId : Nat
  modLoader : Nat

/-- A file hash record `value`/`algo` as it appears in both
ModSearchResult.ts and modpack_version_file.ts. -/
structure FileHash where
  value : String
  algo : Nat
deriving DecidableEq

/-- `SortableGameVersion` (modpack_version_file.ts, lines 3-9 of that
file; the same shape is inlined in ModSearchResult.ts). -/
structure SortableGameVersion where
  gameVersionName : String
  gameVersionPadded : String
  gameVersion : String
  gameVersionReleaseDate : String
  gameVersionTypeId : Nat
deriving DecidableEq

/-- A module record of `LatestFile` (ModSearchResult.ts, lines 92-95). -/
structure FileModule where
  name : String
  fingerprint : Nat

/-- `LatestFile` (ModSearchResult.ts, lines 63-96).  The `dependencies`
field is typed `any[]` in the source and is embedded as an uninterpreted
list of strings. -/
structure LatestFile where
  id : Nat
  gameId : Nat
  modId : Nat
  isAvailable : Bool
  displayName : String
  fileName : String
  releaseType : Nat
  fileStatus : Nat
  hashes : List FileHash
  fileDate : String
  fileLength : Nat
  downloadCount : Nat
  downloadUrl : String
  gameVersions : List String
  sortableGameVersions : List SortableGameVersion
  dependencies : List String
  alternateFileId : Nat
  isServerPack : Bool
  fileFingerprint : Nat
  modules : List FileModule

/-- `Category` (ModSearchResult.ts, lines 40-52). -/
structure Category where
  id : Nat
  gameId : Nat
  name : String
  slug : String
  url : String
  iconUrl : String
  dateModified : String
  isClass : Bool
  classId : Nat
  parentCategoryId : Nat
  latestFile : List LatestFile

/-- Link block of `PackItem` (ModSearchResult.ts, lines 13-18). -/
structure PackLinks where
  websiteUrl : String
  wikiUrl : String
  issuesUrl : Option String
  sourceUrl : Option String

/-- `PackItem` (ModSearchResult.ts, lines 8-38). -/
structure PackItem where
  id : Nat
  gameId : Nat
  name : String
  slug : String
  links : PackLinks
  summary : String
  status : Nat
  downloadCount : Nat
  isFeatured : Bool
  primaryCategoryId : Nat
  classId : Nat
  categories : List Category
  authors : List Author
  logo : Logo
  mainFileId : Nat
  screenshots : List Screenshot
  latestFilesIndexes : List LatestFileIndex
  dateCreated : String
  dateModified : String
  dateReleased : String
  allowModDistribution : Bool
  gamePopularityRank : Nat
  isAvailable : Bool
  thumbsUpCount : Nat

/-- The value returned by `search_modpacks` as the consumer actually sees
it: a JavaScript object on which the `data` and `pagination` fields may or
may not be present.  `JSON.parse(response) as ModSearchResult` performs no
validation, and the catch-all path returns the empty object literal, so
field presence is `Option`al. -/
structure ModSearchResultObj where
  data : Option (List PackItem)
  pagination : Option PaginationObj

/-- The empty object literal `\x7b\x7d as ModSearchResult` returned on the
failure path of `search_modpacks`: it has no `data` and no `pagination`
field. -/
def emptyModSearchResult : ModSearchResultObj :=
  ⟨none, none⟩

/-- The outcome of the awaited `invoke("search_modpacks", ...)` call
followed by `JSON.parse`: either the promise rejected, or it resolved to a
string on which `JSON.parse` threw (embedded as `resolved none`), or it
resolved and parsed to some object value. -/
inductive InvokeOutcome
  | resolved (parsed : Option ModSearchResultObj)
  | rejected (err : String)

/-- `search_modpacks(query)` (curseforge.ts, lines 20-32): the try block
returns the parsed response; any exception from `invoke` or `JSON.parse`
is caught, logged, and the function returns the empty object literal.  The
`Except` result records whether an exception escapes to the caller. -/
def search_modpacks : InvokeOutcome → Except String ModSearchResultObj
  | InvokeOutcome.resolved (some r) => Except.ok r
  | InvokeOutcome.resolved none => Except.ok emptyModSearchResult
  | InvokeOutcome.rejected _ => Except.ok emptyModSearchResult

/-- `itemsPerPage` (PackVersionSelectModal.tsx, line 19). -/
def itemsPerPage : Nat := 20

/-- JavaScript `Array.prototype.slice(start, stop)` for natural indices:
the elements from index `start` up to but excluding `stop`, clamped to the
array length. -/
def jsSlice {α : Type} (l : List α) (start stop : Nat) : List α :=
  (l.drop start).take (stop - start)

/-- The `pageItems` effect of `PackVersionSelectModal` (lines 31-35): when
`fileItems` is empty the effect returns early and the previous `pageItems`
state is kept; otherwise `pageItems` becomes
`fileItems.slice((page - 1) * itemsPerPage, page * itemsPerPage)`. -/
def updatePageItems {α : Type} (fileItems prevPageItems : List α) (page : Nat) : List α :=
  if fileItems.length = 0 then prevPageItems
  else jsSlice fileItems ((page - 1) * itemsPerPage) (page * itemsPerPage)

/-- The `total` attribute of the `Pagination` control
(PackVersionSelectModal.tsx, line 92): `Math.ceil(fileItems.length /
itemsPerPage)`, exact real division followed by ceiling. -/
def paginationTotal (n : Nat) : Nat :=
  Nat.ceil ((n : ℚ) / (itemsPerPage : ℚ))

/-- `ModpackVersionFile` (modpack_version_file.ts, lines 16-36 of that
file): one version descriptor of a pack.  `fileDate` is an ISO-8601 date
string, on which lexicographic comparison coincides with chronological
comparison. -/
structure ModpackVersionFile where
  id : Nat
  gameId : Nat
  modId : Nat
  isAvailable : Bool
  displayName : String
  fileName : String
  releaseType : Nat
  fileStatus : Nat
  hashes : List FileHash
  fileDate : String
  fileLength : Nat
  downloadCount : Nat
  fileSizeOnDisk : Nat
  downloadUrl : Option String
  gameVersions : List String
  sortableGameVersions : List SortableGameVersion
  alternateFileId : Nat
  isServerPack : Bool
  serverPackFileId : Nat
deriving DecidableEq

/-- "Most recent first": descriptor `a` precedes descriptor `b` when `b`'s
date is at most `a`'s date. -/
def mostRecentFirst (a b : ModpackVersionFile) : Prop :=
  b.fileDate ≤ a.fileDate

instance : DecidableRel mostRecentFirst :=
  fun a b => inferInstanceAs (Decidable (b.fileDate ≤ a.fileDate))

instance : IsTotal ModpackVersionFile mostRecentFirst :=
  ⟨fun a b => le_total b.fileDate a.fileDate⟩

instance : IsTrans ModpackVersionFile mostRecentFirst :=
  ⟨fun _ _ _ hab hbc => le_trans hbc hab⟩

/-- Modelled from the spec: the backend command behind `get_pack_versions`
(modpack_version_file.ts, lines 39-42) lives in the Tauri Rust core, which
is absent from src/.  The spec's Catalog Client contract says
`listVersions(projectId)` returns an "ordered sequence of version
descriptors, most-recent first"; we model it as ordering the catalog's raw
descriptor list most-recent first. -/
def get_pack_versions (raw : List ModpackVersionFile) : List ModpackVersionFile :=
  List.insertionSort mostRecentFirst raw

/-- The file id selected by the "Download Latest" button of
`PackItemComponent` (the revision shipping the version picker, lines
94-97): `const latest = files[0].id`, i.e. the id of the first element of
the fetched version list (`none` models the TypeError raised on an empty
list). -/
def downloadLatestFileId (files : List ModpackVersionFile) : Option Nat :=
  files.head?.map fun f => f.id

/-- Stage vocabulary of the specification's Unpack Coordinator (§4.5),
used by the spec-modelled progress stream. -/
inductive SpecStage
  | ResolvingManifest
  | ExtractingArchive
  | DownloadingMods
  | Finalizing
deriving DecidableEq

/-- Position of a spec stage in the pipeline order
`ResolvingManifest ≤ ExtractingArchive ≤ DownloadingMods ≤ Finalizing`. -/
def SpecStage.idx : SpecStage → Nat
  | .ResolvingManifest => 0
  | .ExtractingArchive => 1
  | .DownloadingMods => 2
  | .Finalizing => 3

/-- A progress snapshot of the spec-modelled coordinator. -/
structure SpecSnapshot where
  stage : SpecStage
  progress : ℚ
  message : String

/-- Total progress weight of one run (the spec fixes the per-stage split;
only the total matters for normalization). -/
def coordTotalWeight : Nat := 100

/-- Normalized progress for a given accumulated completed weight:
`progress ∈ [0,1]` is `completedWeight / totalWeight`, saturated at 1. -/
def progressOf (completed : Nat) : ℚ :=
  ((min completed coordTotalWeight : Nat) : ℚ) / (coordTotalWeight : ℚ)

/-- Modelled from the spec: the Unpack Coordinator's fold of worker deltas
into its single Progress State (§3 Progress State, §4.5, §5).  Each element
of the input carries the stage it was produced in, a nonnegative completed
weight delta, and a status message; the coordinator accumulates
`completedWeight` and emits one snapshot per folded delta. -/
def emitFrom (completed : Nat) : List (SpecStage × Nat × String) → List SpecSnapshot
  | [] => []
  | (s, d, m) :: rest =>
    ⟨s, progressOf (completed + d), m⟩ :: emitFrom (completed + d) rest

/-- Tag every delta of one pipeline stage with that stage. -/
def stageTag (s : SpecStage) (evs : List (Nat × String)) : List (SpecStage × Nat × String) :=
  evs.map fun e => (s, e.1, e.2)

/-- Modelled from the spec: one coordinator run (§4.5), absent from src/
(it lives in the Tauri Rust core).  The four pipeline stages are sequenced
`ResolvingManifest → ExtractingArchive → DownloadingMods → Finalizing`;
within each stage the workers' deltas arrive in order through the
coordinator's serialized channel, and the coordinator emits the snapshot
stream observed by the caller. -/
def coordinatorRun (resolveEv extractEv downloadEv finalizeEv : List (Nat × String)) :
    List SpecSnapshot :=
  emitFrom 0
    (stageTag SpecStage.ResolvingManifest resolveEv
      ++ stageTag SpecStage.ExtractingArchive extractEv
      ++ stageTag SpecStage.DownloadingMods downloadEv
      ++ stageTag SpecStage.Finalizing finalizeEv)

/-- The ordering the spec demands between an earlier and a later snapshot
of the same run: progress does not decrease and the stage does not move
backwards in the pipeline order. -/
def snapshotMono (x y : SpecSnapshot) : Prop :=
  x.progress ≤ y.progress ∧ x.stage.idx ≤ y.stage.idx

/-- The error taxonomy of the specification (§7). -/
inductive UnpackError
  | corruptArchive
  | missingManifest
  | unsafeEntryPath
  | catalogUnavailable
  | fileNotFound
  | malformedCatalogResponse
  | hashMismatch
  | requiredFileFailed
  | filesystemError
  | cancelled
deriving DecidableEq

/-- Mod File Entry of the Modpack Manifest (spec §3). -/
structure ModFileEntry where
  projectId : Nat
  fileId : Nat
  required : Bool
deriving DecidableEq

/-- Modpack Manifest (spec §3). -/
structure Manifest where
  minecraftVersion : String
  modLoaderId : String
  files : List ModFileEntry
  overridesPath : String
deriving DecidableEq

/-- A raw manifest file entry as read from JSON, every field possibly
missing. -/
structure RawModFileEntry where
  projectId : Option Nat
  fileId : Option Nat
  required : Option Bool
deriving DecidableEq

/-- A raw manifest object as read from JSON, every field possibly
missing. -/
structure RawManifest where
  minecraftVersion : Option String
  modLoaderId : Option String
  files : Option (List RawModFileEntry)
  overridesPath : Option String
deriving DecidableEq

/-- Parse one raw file entry; any missing field rejects the entry. -/
def parseEntry (r : RawModFileEntry) : Option ModFileEntry := do
  let p ← r.projectId
  let f ← r.fileId
  let req ← r.required
  pure ⟨p, f, req⟩

/-- Modelled from the spec: manifest parsing (§3), absent from src/ (it
lives in the Tauri Rust core).  The input is `none` when the manifest
entry is missing from the archive or its JSON is malformed; parsing
rejects any missing required field and rejects duplicate
`(projectId, fileId)` pairs, before any I/O side effect. -/
def parseManifest : Option RawManifest → Option Manifest
  | none => none
  | some r => do
    let mv ← r.minecraftVersion
    let ml ← r.modLoaderId
    let rawFiles ← r.files
    let entries ← rawFiles.mapM parseEntry
    let ov ← r.overridesPath
    if (entries.map fun e => (e.projectId, e.fileId)).Nodup then
      pure ⟨mv, ml, entries, ov⟩
    else none

/-- One archive entry under the extraction root: its relative path as
segments, and its byte content. -/
structure ArchiveEntry where
  path : List String
  data : String
deriving DecidableEq

/-- A file written into the output tree (directory creation implied). -/
structure FsEffect where
  path : List String
  data : String
deriving DecidableEq

/-- Normalize a relative path against a stack of already-entered
directories: `..` pops a directory, `.` is skipped, and a `..` at depth
zero means the path escapes the destination directory (`none`). -/
def normalizeSegs (stack : List String) : List String → Option (List String)
  | [] => some stack.reverse
  | seg :: rest =>
    if seg = ".." then
      match stack with
      | [] => none
      | _ :: s => normalizeSegs s rest
    else if seg = "." then normalizeSegs stack rest
    else normalizeSegs (seg :: stack) rest

/-- Resolve one entry's relative path under the destination directory;
`none` when the resolved path would escape it. -/
def resolveEntryPath (destDir : List String) (rel : List String) : Option (List String) :=
  (normalizeSegs [] rel).map fun n => destDir ++ n

/-- The containment property of the path-traversal guard: the path lies
inside the destination directory. -/
def underDir (destDir p : List String) : Prop :=
  ∃ tail, p = destDir ++ tail

/-- Modelled from the spec: the Archive Reader's `extractSubtree` (§4.1),
absent from src/ (it lives in the Tauri Rust core).  Entries are streamed
in order; an entry whose resolved path would escape the destination
directory aborts the run with `UnsafeEntryPath`; safe entries are written
preserving their relative paths. -/
def extractSubtree : List ArchiveEntry → List String → List FsEffect × Option UnpackError
  | [], _ => ([], none)
  | e :: rest, destDir =>
    match resolveEntryPath destDir e.path with
    | none => ([], some UnpackError.unsafeEntryPath)
    | some p =>
      let r := extractSubtree rest destDir
      (⟨p, e.data⟩ :: r.1, r.2)

/-- The eventual per-entry result of the Download Orchestrator's pipeline
for one entry (resolve, download, verify), after its retry policy has run
its course. -/
inductive EntryOutcome
  | success
  | failed (reason : UnpackError)
deriving DecidableEq

/-- Whether an entry outcome is a success. -/
def EntryOutcome.isSuccess : EntryOutcome → Bool
  | .success => true
  | .failed _ => false

/-- `DownloadReport` (spec §4.4): count succeeded, count skipped-optional,
list of hard failures (entry and reason). -/
structure DownloadReport where
  succeeded : Nat
  skipped : Nat
  hardFailures : List (ModFileEntry × UnpackError)
deriving DecidableEq

/-- Modelled from the spec: the aggregation of the Download Orchestrator
(§4.4), absent from src/ (it lives in the Tauri Rust core).  `net` gives
each entry's eventual outcome after retries.  Every entry is processed
and recorded — an optional failure increments `skipped`, a required
failure is appended to `hardFailures` — so all in-flight entries are
accounted for before the terminal result is decided. -/
def downloadReport (net : ModFileEntry → EntryOutcome) : List ModFileEntry → DownloadReport
  | [] => ⟨0, 0, []⟩
  | e :: rest =>
    let r := downloadReport net rest
    match net e with
    | EntryOutcome.success => { r with succeeded := r.succeeded + 1 }
    | EntryOutcome.failed reason =>
      if e.required then { r with hardFailures := (e, reason) :: r.hardFailures }
      else { r with skipped := r.skipped + 1 }

/-- Modelled from the spec: `downloadAll` (§4.4) processes every entry,
then fails the whole run with `RequiredFileFailed` exactly when some
required entry is among the hard failures. -/
def downloadAll (net : ModFileEntry → EntryOutcome) (entries : List ModFileEntry) :
    DownloadReport × Except UnpackError Unit :=
  let rep := downloadReport net entries
  (rep, if rep.hardFailures = [] then Except.ok () else Except.error UnpackError.requiredFileFailed)

/-- The on-disk name of a downloaded mod file (the concrete naming is
irrelevant to the claims; ids keep entries distinct). -/
def entryFileName (e : ModFileEntry) : String :=
  toString e.projectId ++ "-" ++ toString e.fileId

/-- The files the Download Orchestrator materializes in the mods
directory: one write per successfully downloaded entry (the downloaded
bytes themselves are abstracted). -/
def modDownloadWrites (net : ModFileEntry → EntryOutcome) (modsDir : List String) :
    List ModFileEntry → List FsEffect
  | [] => []
  | e :: rest =>
    let ws := modDownloadWrites net modsDir rest
    match net e with
    | EntryOutcome.success => ⟨modsDir ++ [entryFileName e], ""⟩ :: ws
    | EntryOutcome.failed _ => ws

/-- A local pack archive: its manifest entry as raw JSON (`none` when the
entry is missing or malformed) and the entries of its overrides
subtree. -/
structure PackArchive where
  manifest : Option RawManifest
  overridesEntries : List ArchiveEntry
deriving DecidableEq

/-- Modelled from the spec: `unpackFromArchive` (§6, §4.5), absent from
src/ (it lives in the Tauri Rust core).  Parse the manifest (rejecting
before any I/O side effect on failure), extract the overrides subtree,
then download the manifest's mod files; the pair returned is the list of
filesystem effects performed and the terminal result. -/
def unpackFromArchive (net : ModFileEntry → EntryOutcome) (arc : PackArchive)
    (outDir : List String) : List FsEffect × Except UnpackError Unit :=
  match parseManifest arc.manifest with
  | none => ([], Except.error UnpackError.missingManifest)
  | some m =>
    let ex := extractSubtree arc.overridesEntries outDir
    match ex.2 with
    | some e => (ex.1, Except.error e)
    | none =>
      (ex.1 ++ modDownloadWrites net (outDir ++ ["mods"]) m.files, (downloadAll net m.files).2)

/-- Concrete version descriptor used by witnesses: the older of two. -/
def vfOlder : ModpackVersionFile :=
  ⟨5, 432, 111, true, "Pack 1.0", "pack-1.0.zip", 1, 4, [], "2023-04-01T10:00:00.000Z",
    1000, 3, 1000, none, ["1.19.2"], [], 0, false, 0⟩

/-- Concrete version descriptor used by witnesses: the newer of two. -/
def vfNewer : ModpackVersionFile :=
  ⟨7, 432, 111, true, "Pack 2.0", "pack-2.0.zip", 1, 4, [], "2024-06-15T12:30:00.000Z",
    1200, 9, 1200, some "https://cdn.example/pack-2.0.zip", ["1.20.1"], [], 0, false, 0⟩

/-- Concrete raw manifest used by witnesses: complete, with an empty
files sequence. -/
def rawOverridesOnly : RawManifest :=
  ⟨some "1.20.1", some "forge-47.2.0", some [], some "overrides"⟩

/-- The parsed form of `rawOverridesOnly`. -/
def mfOverridesOnly : Manifest :=
  ⟨"1.20.1", "forge-47.2.0", [], "overrides"⟩

/-- Concrete archive used by witnesses: the overrides-only manifest plus
one safe overrides entry. -/
def arcOverridesOnly : PackArchive :=
  ⟨some rawOverridesOnly, [⟨["config", "mods.cfg"], "keepDimensions=true"⟩]⟩

/-- Network oracle used by witnesses: every entry succeeds. -/
def netAllOk : ModFileEntry → EntryOutcome :=
  fun _ => EntryOutcome.success

/-- Concrete archive entry used by witnesses: the spec's path-traversal
scenario, an entry path escaping the destination directory. -/
def evilEntry : ArchiveEntry :=
  ⟨["..", "..", "evil"], "boom"⟩

/-- Claim C1: the file id selected through the version picker never
reaches the core.  Evaluated at the failing input (pack id 925201, output
path "/packs/out"): Home's `onUnpack` handler produces the same backend
invocation whichever file id the picker confirmed, that invocation is
`invoke("unpack")` with only the pack id and the output path, and the
invocation payload has no `fileId` key at all — contradicting the claim
that `unpack_modpack` receives and forwards the selected file id. -/
theorem c1_selected_file_id_dropped :
    homeOnUnpack 925201 "/packs/out" 111 = homeOnUnpack 925201 "/packs/out" 5513406
    ∧ homeOnUnpack 925201 "/packs/out" 111 = ⟨"unpack", 925201, "/packs/out"⟩
    ∧ "fileId" ∉ unpackArgKeys := by
  refine ⟨rfl, rfl, ?_⟩
  decide

/-- Claim C2, counterexample: `DownloadingArchive` is a stage value of the
source enum `ProcessStage`, so a delivered snapshot can carry it, yet it is
not among the four stage names the claim allows (the claim's
`ResolvingManifest` does not exist in the code, `DownloadingArchive` does). -/
theorem c2_downloading_archive_outside_spec_stages :
    (ProcessProgressResponse.mk ProcessStage.DownloadingArchive (1 / 2)
        "Downloading modpack archive").stage.name ∉ specStageNames := by
  decide

/-- Claim C2, amended: the stage field of every progress snapshot is one
of exactly the four stages `ExtractingArchive`, `DownloadingArchive`,
`DownloadingMods`, `Finalizing` — the members of the source enum. -/
theorem c2_stage_among_code_stages (p : ProcessProgressResponse) :
    p.stage.name ∈ codeStageNames := by
  obtain ⟨s, _, _⟩ := p
  cases s <;> simp [ProcessStage.name, codeStageNames]

/-- Claim C5: evaluated at a failing run (the awaited unpack promise
rejects), Home's handler presents two notifications, not one: the failure
alert from the catch block and then, unconditionally, the "Unpack
Finished" info alert announcing success — contradicting the claim that a
failed run presents exactly one notification and that it indicates
failure. -/
theorem c5_failed_run_presents_success_alert :
    (homeUnpackAlerts (Except.error "unpack failed")).length = 2
    ∧ AlertCall.mk "Unpack Finished" AlertKind.info "Modpack unpacked successfully."
        ∈ homeUnpackAlerts (Except.error "unpack failed")
    ∧ AlertCall.mk "Failed to unpack" AlertKind.error "Failed to unpack modpack"
        ∈ homeUnpackAlerts (Except.error "unpack failed") := by
  decide

/-- Claim C9: `search_modpacks` never propagates an exception — every
invocation outcome resolves to a value — and on both failure modes (the
backend promise rejecting, or `JSON.parse` throwing on the resolved
string) it resolves to the empty object, which has no `data` and no
`pagination` field, so a consumer reading `.data` observes `undefined`
rather than an empty list. -/
theorem c9_search_modpacks_swallows_failures (o : InvokeOutcome) :
    (∃ r, search_modpacks o = Except.ok r)
    ∧ (∀ e, search_modpacks (InvokeOutcome.rejected e)
          = Except.ok ⟨none, none⟩)
    ∧ search_modpacks (InvokeOutcome.resolved none) = Except.ok ⟨none, none⟩ := by
  refine ⟨?_, fun e => rfl, rfl⟩
  cases o with
  | resolved p =>
    cases p with
    | some r => exact ⟨r, rfl⟩
    | none => exact ⟨emptyModSearchResult, rfl⟩
  | rejected e => exact ⟨emptyModSearchResult, rfl⟩

/-- `Math.ceil(n / 20)` agrees with the natural-number ceiling division
`(n + 19) / 20`. -/
theorem paginationTotal_eq_ceilDiv (n : Nat) :
    paginationTotal n = (n + itemsPerPage - 1) / itemsPerPage := by
  simp only [paginationTotal, itemsPerPage]
  apply Nat.le_antisymm
  · apply Nat.ceil_le.2
    rw [div_le_iff₀ (by norm_num : (0 : ℚ) < (20 : Nat))]
    have hn : n ≤ ((n + 20 - 1) / 20) * 20 := by omega
    exact_mod_cast hn
  · have hc : (n : ℚ) / (20 : Nat) ≤ (Nat.ceil ((n : ℚ) / (20 : Nat)) : ℚ) := Nat.le_ceil _
    rw [div_le_iff₀ (by norm_num : (0 : ℚ) < (20 : Nat))] at hc
    have hn : n ≤ Nat.ceil ((n : ℚ) / (20 : Nat)) * 20 := by exact_mod_cast hc
    omega

/-- Claim C10: for a non-empty fetched version list and any page number at
least 1, the modal's `pageItems` state is exactly the contiguous slice of
the list from index `(page-1)*20` up to but excluding `min(page*20, n)`,
it never holds more than 20 rows, the pagination control exposes
`ceil(n/20)` total pages, and an empty fetched list leaves the previous
page items unchanged. -/
theorem c10_version_modal_pagination {α : Type} (fileItems prev : List α) (page : Nat)
    (hne : fileItems ≠ []) (hp : 1 ≤ page) :
    updatePageItems fileItems prev page
      = (fileItems.take (min (page * itemsPerPage) fileItems.length)).drop
          ((page - 1) * itemsPerPage)
    ∧ (updatePageItems fileItems prev page).length ≤ itemsPerPage
    ∧ paginationTotal fileItems.length
        = (fileItems.length + itemsPerPage - 1) / itemsPerPage
    ∧ updatePageItems ([] : List α) prev page = prev := by
  have hlen : ¬ fileItems.length = 0 := fun h => hne (List.length_eq_zero.mp h)
  have hdiff : page * itemsPerPage - (page - 1) * itemsPerPage = itemsPerPage := by
    simp only [itemsPerPage]; omega
  have htake : fileItems.take (min (page * itemsPerPage) fileItems.length)
      = fileItems.take (page * itemsPerPage) := by
    rw [List.take_eq_take]; simp
  refine ⟨?_, ?_, paginationTotal_eq_ceilDiv _, by simp [updatePageItems]⟩
  · simp only [updatePageItems, jsSlice, if_neg hlen]
    rw [htake, List.drop_take, hdiff]
  · simp only [updatePageItems, jsSlice, if_neg hlen, List.length_take, hdiff]
    exact le_trans (min_le_left _ _) (le_refl _)

/-- Witness for Claim C10 at a concrete five-element list and page 1. -/
theorem c10_witness :
    ([10, 11, 12, 13, 14] : List Nat) ≠ [] ∧ 1 ≤ 1
    ∧ (updatePageItems ([10, 11, 12, 13, 14] : List Nat) [99] 1
        = (([10, 11, 12, 13, 14] : List Nat).take
            (min (1 * itemsPerPage) ([10, 11, 12, 13, 14] : List Nat).length)).drop
            ((1 - 1) * itemsPerPage)
      ∧ (updatePageItems ([10, 11, 12, 13, 14] : List Nat) [99] 1).length ≤ itemsPerPage
      ∧ paginationTotal ([10, 11, 12, 13, 14] : List Nat).length
          = (([10, 11, 12, 13, 14] : List Nat).length + itemsPerPage - 1) / itemsPerPage
      ∧ updatePageItems ([] : List Nat) [99] 1 = [99]) :=
  ⟨by decide, by decide,
    c10_version_modal_pagination [10, 11, 12, 13, 14] [99] 1 (by decide) (by decide)⟩

/-- Claim C4: the version listing is ordered most-recent first, and for a
non-empty catalog the "Download Latest" flow selects the file id of the
first element of that listing, which is the id of a most recent version:
its date is at least the date of every version the catalog has. -/
theorem c4_download_latest_selects_most_recent (raw : List ModpackVersionFile)
    (hne : raw ≠ []) :
    List.Sorted mostRecentFirst (get_pack_versions raw)
    ∧ ∃ v, v ∈ raw ∧ downloadLatestFileId (get_pack_versions raw) = some v.id
        ∧ ∀ u ∈ raw, u.fileDate ≤ v.fileDate := by
  have hsorted : List.Sorted mostRecentFirst (get_pack_versions raw) :=
    List.sorted_insertionSort mostRecentFirst raw
  have hperm : List.Perm (get_pack_versions raw) raw := List.perm_insertionSort mostRecentFirst raw
  refine ⟨hsorted, ?_⟩
  cases hgv : get_pack_versions raw with
  | nil =>
    rw [hgv] at hperm
    exact absurd hperm.nil_eq.symm hne
  | cons v t =>
    have hv : v ∈ get_pack_versions raw := by rw [hgv]; exact List.mem_cons_self v t
    refine ⟨v, hperm.subset hv, by simp [downloadLatestFileId, hgv], ?_⟩
    intro u hu
    have hu' : u ∈ v :: t := by rw [← hgv]; exact hperm.mem_iff.mpr hu
    rcases List.mem_cons.mp hu' with h | h
    · exact h ▸ le_refl _
    · exact List.rel_of_sorted_cons (hgv ▸ hsorted) u h

/-- Witness for Claim C4 at a concrete two-element catalog: the newer
descriptor (id 7, dated 2024) is selected over the older (id 5, dated
2023). -/
theorem c4_witness :
    ([vfOlder, vfNewer] : List ModpackVersionFile) ≠ []
    ∧ (List.Sorted mostRecentFirst (get_pack_versions [vfOlder, vfNewer])
      ∧ ∃ v, v ∈ [vfOlder, vfNewer]
          ∧ downloadLatestFileId (get_pack_versions [vfOlder, vfNewer]) = some v.id
          ∧ ∀ u ∈ [vfOlder, vfNewer], u.fileDate ≤ v.fileDate) :=
  ⟨List.cons_ne_nil _ _,
    c4_download_latest_selects_most_recent [vfOlder, vfNewer] (List.cons_ne_nil _ _)⟩

/-- Accumulating more completed weight never lowers the normalized
progress value. -/
theorem progressOf_mono {k k' : Nat} (h : k ≤ k') : progressOf k ≤ progressOf k' := by
  simp only [progressOf]
  have hmin : min k coordTotalWeight ≤ min k' coordTotalWeight :=
    min_le_min h (le_refl _)
  have hcast : ((min k coordTotalWeight : Nat) : ℚ) ≤ ((min k' coordTotalWeight : Nat) : ℚ) := by
    exact_mod_cast hmin
  have hpos : (0 : ℚ) ≤ (coordTotalWeight : ℚ) := by norm_num [coordTotalWeight]
  exact div_le_div_of_nonneg_right hcast hpos

/-- Every snapshot the coordinator emits after having accumulated weight
`k` has progress at least `progressOf k`, and its stage is the stage of
one of the remaining deltas. -/
theorem emitFrom_bounds (l : List (SpecStage × Nat × String)) :
    ∀ k, ∀ x ∈ emitFrom k l, progressOf k ≤ x.progress ∧ ∃ p ∈ l, x.stage = p.1 := by
  induction l with
  | nil => intro k x hx; simp [emitFrom] at hx
  | cons hd tl ih =>
    intro k x hx
    obtain ⟨s, d, m⟩ := hd
    simp only [emitFrom, List.mem_cons] at hx
    rcases hx with rfl | hx
    · exact ⟨progressOf_mono (Nat.le_add_right k d),
        ⟨(s, d, m), List.mem_cons_self _ _, rfl⟩⟩
    · obtain ⟨h1, p, hp, h2⟩ := ih (k + d) x hx
      exact ⟨le_trans (progressOf_mono (Nat.le_add_right k d)) h1,
        ⟨p, List.mem_cons_of_mem _ hp, h2⟩⟩

/-- If the tagged delta list is stage-monotone, the emitted snapshot
stream is monotone in both progress and stage. -/
theorem emitFrom_pairwise (l : List (SpecStage × Nat × String)) :
    ∀ k, l.Pairwise (fun p q => p.1.idx ≤ q.1.idx) →
      (emitFrom k l).Pairwise snapshotMono := by
  induction l with
  | nil => intro k _; simp [emitFrom]
  | cons hd tl ih =>
    intro k hpw
    obtain ⟨s, d, m⟩ := hd
    rw [List.pairwise_cons] at hpw
    obtain ⟨hhd, htl⟩ := hpw
    simp only [emitFrom]
    rw [List.pairwise_cons]
    refine ⟨?_, ih (k + d) htl⟩
    intro y hy
    obtain ⟨h1, p, hp, h2⟩ := emitFrom_bounds tl (k + d) y hy
    refine ⟨h1, ?_⟩
    show s.idx ≤ y.stage.idx
    rw [h2]
    exact hhd p hp

/-- Every element of a tagged stage list carries that stage. -/
theorem stageTag_fst {s : SpecStage} {evs : List (Nat × String)}
    {p : SpecStage × Nat × String} (hp : p ∈ stageTag s evs) : p.1 = s := by
  simp only [stageTag, List.mem_map] at hp
  obtain ⟨e, _, heq⟩ := hp
  rw [← heq]

/-- A tagged stage list is stage-monotone (all its stages are equal). -/
theorem pairwise_stageTag (s : SpecStage) (evs : List (Nat × String)) :
    (stageTag s evs).Pairwise (fun p q => p.1.idx ≤ q.1.idx) := by
  simp only [stageTag]
  rw [List.pairwise_map]
  induction evs with
  | nil => exact List.Pairwise.nil
  | cons h t ih => exact List.Pairwise.cons (fun _ _ => le_refl _) ih

/-- The coordinator's tagged input stream is stage-monotone: the four
pipeline stages appear in pipeline order. -/
theorem coordinator_input_pairwise (a b c d : List (Nat × String)) :
    (stageTag SpecStage.ResolvingManifest a ++ stageTag SpecStage.ExtractingArchive b
        ++ stageTag SpecStage.DownloadingMods c
        ++ stageTag SpecStage.Finalizing d).Pairwise
      (fun p q => p.1.idx ≤ q.1.idx) := by
  rw [List.pairwise_append]
  refine ⟨?_, pairwise_stageTag _ _, ?_⟩
  · rw [List.pairwise_append]
    refine ⟨?_, pairwise_stageTag _ _, ?_⟩
    · rw [List.pairwise_append]
      refine ⟨pairwise_stageTag _ _, pairwise_stageTag _ _, ?_⟩
      intro p hp q hq
      rw [stageTag_fst hp, stageTag_fst hq]
      decide
    · intro p hp q hq
      rcases List.mem_append.mp hp with h | h <;>
        rw [stageTag_fst h, stageTag_fst hq] <;> decide
  · intro p hp q hq
    rcases List.mem_append.mp hp with h | h
    · rcases List.mem_append.mp h with h' | h' <;>
        rw [stageTag_fst h', stageTag_fst hq] <;> decide
    · rw [stageTag_fst h, stageTag_fst hq]; decide

/-- Claim C3: over any single coordinator run, the delivered snapshot
stream is pairwise monotone in delivery order — each later snapshot has
progress at least the earlier one's, and its stage is at least the
earlier one's in the pipeline order `ResolvingManifest ≤
ExtractingArchive ≤ DownloadingMods ≤ Finalizing` (so no stage is
revisited). -/
theorem c3_snapshot_stream_monotone
    (resolveEv extractEv downloadEv finalizeEv : List (Nat × String)) :
    (coordinatorRun resolveEv extractEv downloadEv finalizeEv).Pairwise snapshotMono := by
  exact emitFrom_pairwise _ 0
    (coordinator_input_pairwise resolveEv extractEv downloadEv finalizeEv)

/-- Claim C6: a valid manifest with an empty files sequence makes
`unpackFromArchive` succeed, materializing exactly the writes of the
overrides extraction and nothing else; and a manifest that fails to parse
is rejected with no filesystem effect at all. -/
theorem c6_overrides_only_pack (net : ModFileEntry → EntryOutcome) (arc : PackArchive)
    (outDir : List String) (m : Manifest)
    (hparse : parseManifest arc.manifest = some m)
    (hfiles : m.files = [])
    (hsafe : (extractSubtree arc.overridesEntries outDir).2 = none) :
    (unpackFromArchive net arc outDir).2 = Except.ok ()
    ∧ (unpackFromArchive net arc outDir).1 = (extractSubtree arc.overridesEntries outDir).1
    ∧ ∀ arc' : PackArchive, parseManifest arc'.manifest = none →
        unpackFromArchive net arc' outDir = ([], Except.error UnpackError.missingManifest) := by
  refine ⟨?_, ?_, ?_⟩
  · simp [unpackFromArchive, hparse, hsafe, hfiles, downloadAll, downloadReport]
  · simp [unpackFromArchive, hparse, hsafe, hfiles, modDownloadWrites]
  · intro arc' hnone
    simp [unpackFromArchive, hnone]

/-- Witness for Claim C6: a concrete archive holding a complete manifest
with zero files and one safe overrides entry. -/
theorem c6_witness :
    parseManifest arcOverridesOnly.manifest = some mfOverridesOnly
    ∧ mfOverridesOnly.files = []
    ∧ (extractSubtree arcOverridesOnly.overridesEntries ["out"]).2 = none
    ∧ ((unpackFromArchive netAllOk arcOverridesOnly ["out"]).2 = Except.ok ()
      ∧ (unpackFromArchive netAllOk arcOverridesOnly ["out"]).1
          = (extractSubtree arcOverridesOnly.overridesEntries ["out"]).1
      ∧ ∀ arc' : PackArchive, parseManifest arc'.manifest = none →
          unpackFromArchive netAllOk arc' ["out"]
            = ([], Except.error UnpackError.missingManifest)) :=
  ⟨by decide, by decide, by decide,
    c6_overrides_only_pack netAllOk arcOverridesOnly ["out"] mfOverridesOnly
      (by decide) (by decide) (by decide)⟩

/-- Extraction reports `UnsafeEntryPath` exactly when some entry's path
escapes the destination directory. -/
theorem extractSubtree_err_iff (entries : List ArchiveEntry) (destDir : List String) :
    (extractSubtree entries destDir).2 = some UnpackError.unsafeEntryPath
      ↔ ∃ e ∈ entries, normalizeSegs [] e.path = none := by
  induction entries with
  | nil => simp [extractSubtree]
  | cons e rest ih =>
    cases hn : normalizeSegs [] e.path with
    | none =>
      have hres : resolveEntryPath destDir e.path = none := by
        simp [resolveEntryPath, hn]
      simp only [extractSubtree, hres]
      constructor
      · intro _
        exact ⟨e, List.mem_cons_self _ _, hn⟩
      · intro _
        trivial
    | some n =>
      have hres : resolveEntryPath destDir e.path = some (destDir ++ n) := by
        simp [resolveEntryPath, hn]
      simp only [extractSubtree, hres]
      rw [ih]
      constructor
      · rintro ⟨f, hf, hfn⟩
        exact ⟨f, List.mem_cons_of_mem _ hf, hfn⟩
      · rintro ⟨f, hf, hfn⟩
        rcases List.mem_cons.mp hf with rfl | hf'
        · rw [hn] at hfn; cases hfn
        · exact ⟨f, hf', hfn⟩

/-- Every write extraction performs lies inside the destination
directory. -/
theorem extractSubtree_writes_under (entries : List ArchiveEntry) (destDir : List String) :
    ∀ w ∈ (extractSubtree entries destDir).1, underDir destDir w.path := by
  induction entries with
  | nil => intro w hw; simp [extractSubtree] at hw
  | cons e rest ih =>
    intro w hw
    cases hn : normalizeSegs [] e.path with
    | none =>
      have hres : resolveEntryPath destDir e.path = none := by
        simp [resolveEntryPath, hn]
      simp [extractSubtree, hres] at hw
    | some n =>
      have hres : resolveEntryPath destDir e.path = some (destDir ++ n) := by
        simp [resolveEntryPath, hn]
      simp only [extractSubtree, hres, List.mem_cons] at hw
      rcases hw with rfl | hw
      · exact ⟨n, rfl⟩
      · exact ih w hw

/-- When no entry escapes, extraction writes every entry at its relative
path under the destination directory, in order. -/
theorem extractSubtree_safe_writes (entries : List ArchiveEntry) (destDir : List String) :
    (extractSubtree entries destDir).2 = none →
      (extractSubtree entries destDir).1
        = entries.map fun e => ⟨destDir ++ (normalizeSegs [] e.path).getD [], e.data⟩ := by
  induction entries with
  | nil => intro _; simp [extractSubtree]
  | cons e rest ih =>
    intro hok
    cases hn : normalizeSegs [] e.path with
    | none =>
      have hres : resolveEntryPath destDir e.path = none := by
        simp [resolveEntryPath, hn]
      rw [extractSubtree] at hok
      simp [hres] at hok
    | some n =>
      have hres : resolveEntryPath destDir e.path = some (destDir ++ n) := by
        simp [resolveEntryPath, hn]
      rw [extractSubtree] at hok
      simp only [hres] at hok
      simp only [extractSubtree, hres, List.map_cons, hn, Option.getD_some]
      exact congrArg _ (ih hok)

/-- Claim C7: extraction fails with `UnsafeEntryPath` exactly when some
entry's resolved path would escape the destination directory; every
performed write stays inside the destination directory; a fully safe
entry list is written preserving relative paths; and an unsafe entry
aborts the whole run with `UnsafeEntryPath` as terminal error, the
effects being only the extraction writes already performed. -/
theorem c7_path_traversal_guard (entries : List ArchiveEntry) (destDir : List String) :
    ((extractSubtree entries destDir).2 = some UnpackError.unsafeEntryPath
      ↔ ∃ e ∈ entries, normalizeSegs [] e.path = none)
    ∧ (∀ w ∈ (extractSubtree entries destDir).1, underDir destDir w.path)
    ∧ ((extractSubtree entries destDir).2 = none →
        (extractSubtree entries destDir).1
          = entries.map fun e => ⟨destDir ++ (normalizeSegs [] e.path).getD [], e.data⟩)
    ∧ (∀ (net : ModFileEntry → EntryOutcome) (arc : PackArchive) (m : Manifest),
        parseManifest arc.manifest = some m →
        (extractSubtree arc.overridesEntries destDir).2
            = some UnpackError.unsafeEntryPath →
        (unpackFromArchive net arc destDir).2 = Except.error UnpackError.unsafeEntryPath
        ∧ (unpackFromArchive net arc destDir).1
            = (extractSubtree arc.overridesEntries destDir).1) := by
  refine ⟨extractSubtree_err_iff entries destDir, extractSubtree_writes_under entries destDir,
    extractSubtree_safe_writes entries destDir, ?_⟩
  intro net arc m hparse hunsafe
  constructor
  · simp [unpackFromArchive, hparse, hunsafe]
  · simp [unpackFromArchive, hparse, hunsafe]

/-- Witness for Claim C7 at the spec's scenario: the single entry
`"../../evil"` under the overrides prefix, destination directory
`["out"]`. -/
theorem c7_witness :
    ((extractSubtree [evilEntry] ["out"]).2 = some UnpackError.unsafeEntryPath
      ↔ ∃ e ∈ [evilEntry], normalizeSegs [] e.path = none)
    ∧ (∀ w ∈ (extractSubtree [evilEntry] ["out"]).1, underDir ["out"] w.path)
    ∧ ((extractSubtree [evilEntry] ["out"]).2 = none →
        (extractSubtree [evilEntry] ["out"]).1
          = [evilEntry].map fun e => ⟨["out"] ++ (normalizeSegs [] e.path).getD [], e.data⟩)
    ∧ (∀ (net : ModFileEntry → EntryOutcome) (arc : PackArchive) (m : Manifest),
        parseManifest arc.manifest = some m →
        (extractSubtree arc.overridesEntries ["out"]).2
            = some UnpackError.unsafeEntryPath →
        (unpackFromArchive net arc ["out"]).2 = Except.error UnpackError.unsafeEntryPath
        ∧ (unpackFromArchive net arc ["out"]).1
            = (extractSubtree arc.overridesEntries ["out"]).1) :=
  c7_path_traversal_guard [evilEntry] ["out"]

/-- The report's hard-failure list is empty exactly when every required
entry eventually succeeded. -/
theorem downloadReport_hardFailures_nil_iff (net : ModFileEntry → EntryOutcome)
    (l : List ModFileEntry) :
    (downloadReport net l).hardFailures = []
      ↔ ∀ e ∈ l, e.required = true → (net e).isSuccess = true := by
  induction l with
  | nil => simp [downloadReport]
  | cons e rest ih =>
    cases hn : net e with
    | success =>
      simp only [downloadReport, hn, List.mem_cons]
      rw [ih]
      constructor
      · rintro h f (rfl | hf)
        · intro _; rw [hn]; rfl
        · exact h f hf
      · intro h f hf
        exact h f (Or.inr hf)
    | failed reason =>
      cases hreq : e.required with
      | true =>
        simp only [downloadReport, hn, hreq, if_pos]
        constructor
        · intro h; cases h
        · intro h
          have := h e (List.mem_cons_self _ _) hreq
          rw [hn] at this
          cases this
      | false =>
        simp only [downloadReport, hn, hreq, Bool.false_eq_true, if_neg, not_false_iff,
          List.mem_cons]
        rw [ih]
        constructor
        · rintro h f (rfl | hf)
          · intro hr; rw [hreq] at hr; cases hr
          · exact h f hf
        · intro h f hf
          exact h f (Or.inr hf)

/-- The report's skipped count is the number of optional entries that
eventually failed. -/
theorem downloadReport_skipped (net : ModFileEntry → EntryOutcome)
    (l : List ModFileEntry) :
    (downloadReport net l).skipped
      = (l.filter fun e => !e.required && !(net e).isSuccess).length := by
  induction l with
  | nil => simp [downloadReport]
  | cons e rest ih =>
    cases hn : net e with
    | success =>
      simp [downloadReport, hn, List.filter_cons, EntryOutcome.isSuccess, ih]
    | failed reason =>
      cases hreq : e.required with
      | true =>
        simp [downloadReport, hn, hreq, List.filter_cons, EntryOutcome.isSuccess, ih]
      | false =>
        simp [downloadReport, hn, hreq, List.filter_cons, EntryOutcome.isSuccess, ih]

/-- Every entry is accounted for in the report: succeeded plus skipped
plus hard failures equals the number of entries. -/
theorem downloadReport_counts (net : ModFileEntry → EntryOutcome)
    (l : List ModFileEntry) :
    (downloadReport net l).succeeded + (downloadReport net l).skipped
      + (downloadReport net l).hardFailures.length = l.length := by
  induction l with
  | nil => simp [downloadReport]
  | cons e rest ih =>
    cases hn : net e with
    | success =>
      simp only [downloadReport, hn, List.length_cons]
      omega
    | failed reason =>
      cases hreq : e.required with
      | true =>
        simp only [downloadReport, hn, hreq, if_pos, List.length_cons]
        omega
      | false =>
        simp only [downloadReport, hn, hreq, Bool.false_eq_true, if_neg,
          not_false_iff, List.length_cons]
        omega

/-- Claim C8: the run fails with `RequiredFileFailed` exactly when some
required entry ultimately failed (and succeeds exactly when every
required entry succeeded, so optional failures never fail the run); every
optional entry that ultimately fails is recorded in the report's skipped
count; and the report accounts for every entry — all in-flight entries
are allowed to finish before the terminal error is decided. -/
theorem c8_required_optional_failures (net : ModFileEntry → EntryOutcome)
    (entries : List ModFileEntry) :
    ((downloadAll net entries).2 = Except.error UnpackError.requiredFileFailed
      ↔ ∃ e ∈ entries, e.required = true ∧ (net e).isSuccess = false)
    ∧ ((downloadAll net entries).2 = Except.ok ()
      ↔ ∀ e ∈ entries, e.required = true → (net e).isSuccess = true)
    ∧ (downloadAll net entries).1.skipped
        = (entries.filter fun e => !e.required && !(net e).isSuccess).length
    ∧ (downloadAll net entries).1.succeeded + (downloadAll net entries).1.skipped
        + (downloadAll net entries).1.hardFailures.length = entries.length := by
  have hnil := downloadReport_hardFailures_nil_iff net entries
  by_cases h : (downloadReport net entries).hardFailures = []
  · refine ⟨?_, ?_, downloadReport_skipped net entries, downloadReport_counts net entries⟩
    · simp only [downloadAll, h, if_pos]
      constructor
      · intro hcontra; cases hcontra
      · rintro ⟨e, he, hreq, hfail⟩
        have := hnil.mp h e he hreq
        rw [this] at hfail
        cases hfail
    · simp only [downloadAll, h, if_pos]
      exact ⟨fun _ => hnil.mp h, fun _ => trivial⟩
  · refine ⟨?_, ?_, downloadReport_skipped net entries, downloadReport_counts net entries⟩
    · simp only [downloadAll, h, if_neg, not_false_iff]
      constructor
      · intro _
        have hne := mt hnil.mpr h
        push_neg at hne
        obtain ⟨e, he, hreq, hfail⟩ := hne
        exact ⟨e, he, hreq, by simpa using hfail⟩
      · intro _; trivial
    · simp only [downloadAll, h, if_neg, not_false_iff]
      constructor
      · intro hcontra; cases hcontra
      · intro hall
        exact absurd (hnil.mpr hall) h
